import Mathlib

/-!
Verification of the ggbc compiler back end: the register allocator and
symbol allocator (src/modules/ggbc/src/ir/alloc.rs) and the bytecode
virtual machine (src/modules/ggbc-vm/src/lib.rs), shallowly embedded in
Lean 4. Machine integers are modelled as Nat with explicit reductions
modulo 2^8, 2^16 or 2^64 at the points where the source performs
fixed-width arithmetic; panics (assertion failures, out-of-bounds pops,
division by zero, writes to ROM) are modelled by Option, with none
standing for an abort.
-/

namespace Ggbc

/-- Pointwise update of a byte map (the embedding of writing one cell of a
byte array or register bank). -/
def upd (m : Nat → Nat) (a v : Nat) : Nat → Nat :=
  fun x => if x = a then v else m x

@[simp] theorem upd_same (m : Nat → Nat) (a v : Nat) : upd m a v a = v := by
  simp [upd]

@[simp] theorem upd_other (m : Nat → Nat) (a v x : Nat) (h : x ≠ a) :
    upd m a v x = m x := by
  simp [upd, h]

/-! ## Register allocator (RegisterAlloc, alloc.rs lines 205-249)

The source stores a u64 bitset; bit i set means virtual register i is in
use. We embed the bitset as a Nat kept below 2^64. -/

structure RegisterAlloc where
  bitset : Nat
deriving DecidableEq, Repr

/-- Default value of the allocator: empty bitset. -/
def RegisterAlloc.init : RegisterAlloc := ⟨0⟩

/-- Embedding of RegisterAlloc::get: tests bit index of the bitset via
bitset AND (1 shifted left by index), as the source does. -/
def RegisterAlloc.get (r : RegisterAlloc) (index : Nat) : Bool :=
  (r.bitset &&& (1 <<< index)) != 0

/-- Embedding of RegisterAlloc::set: ORs the bit in, or ANDs it out with
the u64 complement mask (2^64 - 1 XOR bit). The source also returns a
value that every caller discards; we drop it. -/
def RegisterAlloc.set (r : RegisterAlloc) (index : Nat) (value : Bool) :
    RegisterAlloc :=
  let bit := 1 <<< index
  if value then ⟨r.bitset ||| bit⟩ else ⟨r.bitset &&& ((2 ^ 64 - 1) ^^^ bit)⟩

/-- Embedding of RegisterAlloc::min: the first index in [0,64) whose bit
is clear; the source unwraps, which panics when all 64 are set, hence
Option. -/
def RegisterAlloc.min (r : RegisterAlloc) : Option Nat :=
  (List.range 64).find? (fun b => !(r.get b))

/-- Embedding of RegisterAlloc::len: count_ones of the u64 bitset. -/
def RegisterAlloc.len (r : RegisterAlloc) : Nat :=
  ((List.range 64).filter (fun b => r.bitset.testBit b)).length

/-- Embedding of RegisterAlloc::alloc: reserve and return the minimum
free index (none models the all-full panic). -/
def RegisterAlloc.alloc (r : RegisterAlloc) : Option (Nat × RegisterAlloc) :=
  match r.min with
  | none => none
  | some m => some (m, r.set m true)

/-- Embedding of RegisterAlloc::free: the assert that the bit is set is
modelled by returning none when it is not. -/
def RegisterAlloc.free (r : RegisterAlloc) (index : Nat) :
    Option RegisterAlloc :=
  if r.get index then some (r.set index false) else none

/-- An abstract alloc/free call against the register allocator. -/
inductive RegOp where
  | alloc
  | free (index : Nat)
deriving DecidableEq, Repr

/-- Run a sequence of alloc/free calls; none when some free targets a
slot not currently allocated (or alloc finds all 64 slots full). -/
def runRegOps : RegisterAlloc → List RegOp → Option RegisterAlloc
  | r, [] => some r
  | r, RegOp.alloc :: ops =>
    match r.alloc with
    | none => none
    | some (_, r') => runRegOps r' ops
  | r, RegOp.free i :: ops =>
    match r.free i with
    | none => none
    | some r' => runRegOps r' ops

theorem get_eq_testBit (r : RegisterAlloc) (i : Nat) :
    r.get i = r.bitset.testBit i := by
  unfold RegisterAlloc.get
  rw [Nat.shiftLeft_eq, one_mul, Nat.and_two_pow]
  cases h : r.bitset.testBit i <;>
    simp [h, bne, Nat.pos_iff_ne_zero, (Nat.pow_pos (by omega : 0 < 2)).ne.symm]

theorem range'_find_spec (p : Nat → Bool) :
    ∀ (n s m : Nat), (List.range' s n).find? p = some m →
      s ≤ m ∧ m < s + n ∧ p m = true ∧ ∀ j, s ≤ j → j < m → p j = false := by
  intro n
  induction n with
  | zero => intro s m h; simp [List.range'] at h
  | succ k ih =>
    intro s m h
    rw [List.range'_succ] at h
    by_cases hp : p s = true
    · rw [List.find?_cons_of_pos _ hp] at h
      cases h
      exact ⟨Nat.le_refl _, by omega, hp, fun j h1 h2 => by omega⟩
    · rw [List.find?_cons_of_neg _ (by simpa using hp)] at h
      obtain ⟨h1, h2, h3, h4⟩ := ih (s + 1) m h
      refine ⟨by omega, by omega, h3, fun j hj1 hj2 => ?_⟩
      rcases Nat.eq_or_lt_of_le hj1 with hj | hj
      · simpa [← hj] using hp
      · exact h4 j hj hj2

theorem min_spec (r : RegisterAlloc) (m : Nat) (h : r.min = some m) :
    m < 64 ∧ r.get m = false ∧ ∀ j, j < m → r.get j = true := by
  unfold RegisterAlloc.min at h
  rw [List.range_eq_range'] at h
  obtain ⟨-, h2, h3, h4⟩ := range'_find_spec _ _ _ _ h
  refine ⟨by omega, by simpa using h3, fun j hj => ?_⟩
  have := h4 j (Nat.zero_le j) hj
  simpa using this

/-- C4: after every sequence of alloc/free calls in which each free
targets a currently allocated slot, a further alloc returns the smallest
index in [0,64) not currently in use and marks it in use, and len equals
the number of in-use (set) bits of the bitset. -/
theorem regalloc_alloc_min_len (ops : List RegOp) (r : RegisterAlloc)
    (h : runRegOps RegisterAlloc.init ops = some r) :
    (∀ m r', r.alloc = some (m, r') →
        m < 64 ∧ r.get m = false ∧ (∀ j, j < m → r.get j = true) ∧
          r'.get m = true) ∧
      r.len = ((List.range 64).filter (fun b => r.get b)).length := by
  constructor
  · intro m r' halloc
    unfold RegisterAlloc.alloc at halloc
    cases hmin : r.min with
    | none => rw [hmin] at halloc; cases halloc
    | some m0 =>
      rw [hmin] at halloc
      cases halloc
      obtain ⟨h1, h2, h3⟩ := min_spec r m hmin
      refine ⟨h1, h2, h3, ?_⟩
      show (r.set m true).get m = true
      rw [get_eq_testBit]
      simp only [RegisterAlloc.set, if_pos]
      rw [Nat.testBit_or, Nat.shiftLeft_eq, one_mul, Nat.testBit_two_pow_self]
      simp
  · unfold RegisterAlloc.len
    congr 1
    apply List.filter_congr
    intro b _
    rw [get_eq_testBit]

theorem regalloc_alloc_min_len_witness :
    runRegOps RegisterAlloc.init
        [RegOp.alloc, RegOp.alloc, RegOp.free 0, RegOp.alloc] =
          some ⟨3⟩ ∧
      (∀ m r', RegisterAlloc.alloc ⟨3⟩ = some (m, r') →
          m < 64 ∧ RegisterAlloc.get ⟨3⟩ m = false ∧
            (∀ j, j < m → RegisterAlloc.get ⟨3⟩ j = true) ∧
              r'.get m = true) ∧
      RegisterAlloc.len ⟨3⟩ =
        ((List.range 64).filter (fun b => RegisterAlloc.get ⟨3⟩ b)).length :=
  ⟨by decide,
   (regalloc_alloc_min_len [RegOp.alloc, RegOp.alloc, RegOp.free 0,
      RegOp.alloc] ⟨3⟩ (by decide)).1,
   (regalloc_alloc_min_len [RegOp.alloc, RegOp.alloc, RegOp.free 0,
      RegOp.alloc] ⟨3⟩ (by decide)).2⟩

/-! ## Symbol allocator (SymbolAlloc, alloc.rs lines 30-203) -/

/-- Embedding of alloc.rs Space: the four allocation-time address
spaces. -/
inductive Space where
  | Static
  | Const
  | Stack
  | Absolute
deriving DecidableEq, Repr

/-- Embedding of alloc.rs Symbol. The source also stores a reference to
the declared AST type of the symbol; no claim depends on it and the AST
type grammar is external to the allocator, so that field is dropped
here. Offsets and sizes are u16 in the source. -/
structure Symbol where
  name : String
  offset : Nat
  size : Nat
  space : Space
deriving DecidableEq, Repr

mutual

/-- Modelled from the spec: the subset of the parser's Type grammar the
allocator distinguishes (the Type definition itself is not part of the
sources given). A leaf type (U8, I8, Array, Pointer, Fn) occupies
exactly size_of(type) contiguous bytes and becomes one Symbol, so the
leaf constructor carries that size; struct and union types carry their
field lists (each field an identifier plus a type, as in the parser's
Field struct). -/
inductive Ty where
  | leaf (size : Nat)
  | struct_ (fields : Fields)
  | union_ (fields : Fields)

/-- List of named fields of a struct or union type (each entry mirrors a
parser Field: identifier and type). -/
inductive Fields where
  | nil
  | cons (ident : String) (type_ : Ty) (rest : Fields)

end

mutual

/-- Modelled from the spec: size_of from ggbc ir utils (not among the
given sources). A leaf occupies its own size, a struct lays fields out
sequentially so its size is the sum, and a union overlaps all fields at
the same offset; the spec leaves the union's own size ambiguous (first
vs largest field) and we take the largest, which no settled claim
depends on. -/
def sizeOfTy : Ty → Nat
  | Ty.leaf n => n
  | Ty.struct_ fs => sumSize fs
  | Ty.union_ fs => maxSize fs

/-- Sum of the sizes of a field list (struct layout). -/
def sumSize : Fields → Nat
  | Fields.nil => 0
  | Fields.cons _ t rest => sizeOfTy t + sumSize rest

/-- Maximum of the sizes of a field list (union layout). -/
def maxSize : Fields → Nat
  | Fields.nil => 0
  | Fields.cons _ t rest => max (sizeOfTy t) (maxSize rest)

end

mutual

/-- Embedding of SymbolAlloc::compute_all_symbols: recursively flattens
a field (identifier plus type) into one Symbol per leaf, appending to
the symbols list, and returns the size of the entire field together
with the extended list. Names are prefixed with the parent path joined
by a double colon. Offset arithmetic is u16 in the source, hence the
reductions modulo 2^16 where the struct branch advances the running
offset. -/
def compute_all_symbols (pre : String) (offset : Nat) (ident : String)
    (type_ : Ty) (space : Space) (symbols : List Symbol) :
    Nat × List Symbol :=
  let name := if pre = "" then ident else pre ++ "::" ++ ident
  let size := sizeOfTy type_
  match type_ with
  | Ty.leaf _ => (size, symbols ++ [⟨name, offset, size, space⟩])
  | Ty.struct_ fs => (size, computeStructFields name offset fs space symbols)
  | Ty.union_ fs => (size, computeUnionFields name offset fs space symbols)

/-- Struct branch of compute_all_symbols: each field's offset is the
running cursor, advanced by that field's computed size (u16 addition). -/
def computeStructFields (pre : String) (offset : Nat) (fs : Fields)
    (space : Space) (symbols : List Symbol) : List Symbol :=
  match fs with
  | Fields.nil => symbols
  | Fields.cons id t rest =>
    let r := compute_all_symbols pre offset id t space symbols
    computeStructFields pre ((offset + r.1) % 65536) rest space r.2

/-- Union branch of compute_all_symbols: every field is computed at the
same offset; the returned size of one member does not advance the
offset used for the others. -/
def computeUnionFields (pre : String) (offset : Nat) (fs : Fields)
    (space : Space) (symbols : List Symbol) : List Symbol :=
  match fs with
  | Fields.nil => symbols
  | Fields.cons id t rest =>
    let r := compute_all_symbols pre offset id t space symbols
    computeUnionFields pre offset rest space r.2

end

/-- Embedding of alloc.rs SymbolAlloc: per-space symbol tables and
allocation cursors (cursors are u16 in the source). -/
structure SymbolAlloc where
  absolute_symbols : List Symbol := []
  const_symbols : List Symbol := []
  static_symbols : List Symbol := []
  stack_symbols : List Symbol := []
  absolute_symbols_alloc : Nat := 0
  const_symbols_alloc : Nat := 0
  static_symbols_alloc : Nat := 0
  stack_symbols_alloc : Nat := 0

namespace SymbolAlloc

/-- Embedding of the private helper the source spells _is_undefined
despite it returning whether a symbol of that name IS present in the
given table (find(..).is_some()). -/
def definedIn (ident : String) (symbols : List Symbol) : Bool :=
  (symbols.find? (fun s => s.name == ident)).isSome

/-- Embedding of SymbolAlloc::is_undefined: the identifier is defined in
none of the four symbol tables. -/
def is_undefined (a : SymbolAlloc) (ident : String) : Bool :=
  !(definedIn ident a.absolute_symbols || definedIn ident a.static_symbols
    || definedIn ident a.const_symbols || definedIn ident a.stack_symbols)

/-- Embedding of SymbolAlloc::clear_stack. -/
def clear_stack (a : SymbolAlloc) : SymbolAlloc :=
  { a with stack_symbols := [], stack_symbols_alloc := 0 }

/-- Embedding of SymbolAlloc::alloc_const; the assert on is_undefined is
modelled by none, and the unused initializer expression parameter is
dropped. -/
def alloc_const (a : SymbolAlloc) (ident : String) (type_ : Ty) :
    Option SymbolAlloc :=
  if a.is_undefined ident then
    let r := compute_all_symbols "" a.const_symbols_alloc ident type_
      Space.Const a.const_symbols
    some { a with const_symbols := r.2,
                  const_symbols_alloc := (a.const_symbols_alloc + r.1) % 65536 }
  else none

/-- Embedding of SymbolAlloc::alloc_static. -/
def alloc_static (a : SymbolAlloc) (ident : String) (type_ : Ty) :
    Option SymbolAlloc :=
  if a.is_undefined ident then
    let r := compute_all_symbols "" a.static_symbols_alloc ident type_
      Space.Static a.static_symbols
    some { a with static_symbols := r.2,
                  static_symbols_alloc :=
                    (a.static_symbols_alloc + r.1) % 65536 }
  else none

/-- Embedding of SymbolAlloc::alloc_absolute: lays the field out at the
caller-fixed offset; note the source does not advance any cursor here. -/
def alloc_absolute (a : SymbolAlloc) (ident : String) (type_ : Ty)
    (offset : Nat) : Option SymbolAlloc :=
  if a.is_undefined ident then
    let r := compute_all_symbols "" offset ident type_
      Space.Absolute a.absolute_symbols
    some { a with absolute_symbols := r.2 }
  else none

/-- Embedding of SymbolAlloc::alloc_stack_field: returns the first
allocated address (the cursor before the allocation) along with the new
state. -/
def alloc_stack_field (a : SymbolAlloc) (ident : String) (type_ : Ty) :
    Option (Nat × SymbolAlloc) :=
  if a.is_undefined ident then
    let r := compute_all_symbols "" a.stack_symbols_alloc ident type_
      Space.Stack a.stack_symbols
    some (a.stack_symbols_alloc,
      { a with stack_symbols := r.2,
               stack_symbols_alloc := (a.stack_symbols_alloc + r.1) % 65536 })
  else none

/-- Embedding of SymbolAlloc::get: a linear scan of the chained stack,
static, const and absolute tables, in that order; the expect on a
missing name is modelled by none. -/
def get (a : SymbolAlloc) (name : String) : Option Symbol :=
  (a.stack_symbols ++ a.static_symbols ++ a.const_symbols
    ++ a.absolute_symbols).find? (fun s => s.name == name)

/-- All four symbol tables chained in the priority order get scans
them: stack, then static, then const, then absolute. -/
def scanOrder (a : SymbolAlloc) : List Symbol :=
  a.stack_symbols ++ a.static_symbols ++ a.const_symbols
    ++ a.absolute_symbols

/-- The identifier names some symbol in at least one of the four
spaces. -/
def DefinedSomewhere (a : SymbolAlloc) (ident : String) : Prop :=
  ∃ s ∈ scanOrder a, s.name = ident

theorem definedIn_true_iff (ident : String) (symbols : List Symbol) :
    definedIn ident symbols = true ↔ ∃ s ∈ symbols, s.name = ident := by
  unfold definedIn
  rw [List.find?_isSome]
  simp

theorem is_undefined_false_iff (a : SymbolAlloc) (ident : String) :
    a.is_undefined ident = false ↔ DefinedSomewhere a ident := by
  unfold is_undefined DefinedSomewhere scanOrder
  simp only [Bool.not_eq_false', Bool.or_eq_true, definedIn_true_iff,
    List.mem_append]
  constructor
  · rintro (((⟨s, hs, hn⟩ | ⟨s, hs, hn⟩) | ⟨s, hs, hn⟩) | ⟨s, hs, hn⟩) <;>
      exact ⟨s, by tauto, hn⟩
  · rintro ⟨s, hs, hn⟩
    rcases hs with ((h | h) | h) | h
    · exact Or.inr ⟨s, h, hn⟩
    · exact Or.inl (Or.inl (Or.inr ⟨s, h, hn⟩))
    · exact Or.inl (Or.inr ⟨s, h, hn⟩)
    · exact Or.inl (Or.inl (Or.inl ⟨s, h, hn⟩))

/-- C2: every symbol-allocation entry point (alloc_const, alloc_static,
alloc_absolute, alloc_stack_field) fails, for a field of any type, edge
exactly when the field's identifier is already defined in at least one
of the four spaces combined, and otherwise succeeds. -/
theorem alloc_rejects_defined_ident (a : SymbolAlloc) (ident : String)
    (type_ : Ty) (offset : Nat) :
    ((a.alloc_const ident type_).isNone ↔ DefinedSomewhere a ident) ∧
      ((a.alloc_static ident type_).isNone ↔ DefinedSomewhere a ident) ∧
      ((a.alloc_absolute ident type_ offset).isNone ↔
        DefinedSomewhere a ident) ∧
      ((a.alloc_stack_field ident type_).isNone ↔
        DefinedSomewhere a ident) := by
  rw [← is_undefined_false_iff]
  unfold alloc_const alloc_static alloc_absolute alloc_stack_field
  cases h : a.is_undefined ident <;> simp [h]

/-- C7: get scans the stack, static, const and absolute symbol tables in
that priority order: the lookup fails exactly when no symbol of the
requested name exists in any space; a returned symbol bears the
requested name and comes from one of the four tables; a stack symbol of
that name always wins; a static symbol wins when the stack table has no
match; a const symbol wins when neither stack nor static match; an
absolute symbol is returned only when the three earlier tables have no
match. -/
theorem get_priority_scan (a : SymbolAlloc) (n : String) :
    (a.get n = none ↔ ∀ s ∈ scanOrder a, s.name ≠ n) ∧
      (∀ t, a.get n = some t → t.name = n ∧ t ∈ scanOrder a) ∧
      (∀ s, s ∈ a.stack_symbols → s.name = n →
        ∃ t, t ∈ a.stack_symbols ∧ t.name = n ∧ a.get n = some t) ∧
      (∀ s, s ∈ a.static_symbols → s.name = n →
        (∀ u ∈ a.stack_symbols, u.name ≠ n) →
        ∃ t, t ∈ a.static_symbols ∧ t.name = n ∧ a.get n = some t) ∧
      (∀ s, s ∈ a.const_symbols → s.name = n →
        (∀ u ∈ a.stack_symbols, u.name ≠ n) →
        (∀ u ∈ a.static_symbols, u.name ≠ n) →
        ∃ t, t ∈ a.const_symbols ∧ t.name = n ∧ a.get n = some t) ∧
      (∀ s, s ∈ a.absolute_symbols → s.name = n →
        (∀ u ∈ a.stack_symbols, u.name ≠ n) →
        (∀ u ∈ a.static_symbols, u.name ≠ n) →
        (∀ u ∈ a.const_symbols, u.name ≠ n) →
        ∃ t, t ∈ a.absolute_symbols ∧ t.name = n ∧ a.get n = some t) := by
  have hfind : ∀ (l : List Symbol),
      (∃ s ∈ l, s.name = n) →
        ∃ t, t ∈ l ∧ t.name = n ∧
          l.find? (fun s => s.name == n) = some t := by
    intro l ⟨s, hs, hn⟩
    have hsome : (l.find? (fun s => s.name == n)).isSome :=
      List.find?_isSome.mpr ⟨s, hs, by simpa using hn⟩
    obtain ⟨t, ht⟩ := Option.isSome_iff_exists.mp hsome
    exact ⟨t, List.mem_of_find?_eq_some ht,
      by simpa using List.find?_some ht, ht⟩
  have hnone : ∀ (l : List Symbol),
      (∀ s ∈ l, s.name ≠ n) →
        l.find? (fun s => s.name == n) = none := by
    intro l h
    rw [List.find?_eq_none]
    intro s hs
    simpa using h s hs
  refine ⟨?_, ?_, ?_, ?_, ?_, ?_⟩
  · unfold get scanOrder
    rw [List.find?_eq_none]
    simp
  · intro t ht
    unfold get at ht
    exact ⟨by simpa using List.find?_some ht,
      by unfold scanOrder; exact List.mem_of_find?_eq_some ht⟩
  · intro s hs hn
    obtain ⟨t, ht1, ht2, ht3⟩ := hfind a.stack_symbols ⟨s, hs, hn⟩
    refine ⟨t, ht1, ht2, ?_⟩
    unfold get
    rw [List.append_assoc, List.append_assoc, List.find?_append, ht3]
    rfl
  · intro s hs hn hstack
    obtain ⟨t, ht1, ht2, ht3⟩ := hfind a.static_symbols ⟨s, hs, hn⟩
    refine ⟨t, ht1, ht2, ?_⟩
    unfold get
    rw [List.append_assoc, List.append_assoc, List.find?_append,
      hnone _ hstack, List.find?_append, ht3]
    rfl
  · intro s hs hn hstack hstatic
    obtain ⟨t, ht1, ht2, ht3⟩ := hfind a.const_symbols ⟨s, hs, hn⟩
    refine ⟨t, ht1, ht2, ?_⟩
    unfold get
    rw [List.append_assoc, List.append_assoc, List.find?_append,
      hnone _ hstack, List.find?_append, hnone _ hstatic,
      List.find?_append, ht3]
    rfl
  · intro s hs hn hstack hstatic hconst
    obtain ⟨t, ht1, ht2, ht3⟩ := hfind a.absolute_symbols ⟨s, hs, hn⟩
    refine ⟨t, ht1, ht2, ?_⟩
    unfold get
    rw [List.append_assoc, List.append_assoc, List.find?_append,
      hnone _ hstack, List.find?_append, hnone _ hstatic,
      List.find?_append, hnone _ hconst, ht3]
    rfl

/-- C3: allocating a struct field with leaf members of sizes a, b, c via
alloc_static registers three symbols at offsets base, base + a and
base + a + b (the running cursor advanced by each member's size) with
sizes a, b, c, and advances the cursor by the total a + b + c; a union
field with the same members registers all three symbols at the same
offset base. -/
theorem struct_union_layout (al : SymbolAlloc) (base a b c : Nat)
    (n0 n1 n2 n3 : String)
    (hbase : al.static_symbols_alloc = base)
    (hundef : al.is_undefined n0 = true)
    (hfit : base + (a + b + c) < 65536) :
    (∃ al', al.alloc_static n0 (Ty.struct_ (Fields.cons n1 (Ty.leaf a)
          (Fields.cons n2 (Ty.leaf b) (Fields.cons n3 (Ty.leaf c)
            Fields.nil)))) = some al' ∧
        (∃ s1 s2 s3, al'.static_symbols = al.static_symbols
            ++ [s1, s2, s3] ∧
          s1.offset = base ∧ s1.size = a ∧
          s2.offset = base + a ∧ s2.size = b ∧
          s3.offset = base + a + b ∧ s3.size = c) ∧
        al'.static_symbols_alloc = base + (a + b + c)) ∧
      (∃ al', al.alloc_static n0 (Ty.union_ (Fields.cons n1 (Ty.leaf a)
          (Fields.cons n2 (Ty.leaf b) (Fields.cons n3 (Ty.leaf c)
            Fields.nil)))) = some al' ∧
        ∃ s1 s2 s3, al'.static_symbols = al.static_symbols
            ++ [s1, s2, s3] ∧
          s1.offset = base ∧ s1.size = a ∧
          s2.offset = base ∧ s2.size = b ∧
          s3.offset = base ∧ s3.size = c) := by
  subst hbase
  have e1 : (al.static_symbols_alloc + a) % 65536
      = al.static_symbols_alloc + a := Nat.mod_eq_of_lt (by omega)
  have e2 : (al.static_symbols_alloc + a + b) % 65536
      = al.static_symbols_alloc + a + b := Nat.mod_eq_of_lt (by omega)
  have e3 : (al.static_symbols_alloc + (a + (b + (c + 0)))) % 65536
      = al.static_symbols_alloc + (a + (b + (c + 0))) :=
    Nat.mod_eq_of_lt (by omega)
  constructor
  · unfold alloc_static
    rw [hundef, if_pos rfl]
    simp only [compute_all_symbols, computeStructFields, sizeOfTy,
      sumSize, e1, e2, e3]
    refine ⟨_, rfl,
      ⟨⟨if n0 = "" then n1 else n0 ++ "::" ++ n1,
          al.static_symbols_alloc, a, Space.Static⟩,
        ⟨if n0 = "" then n2 else n0 ++ "::" ++ n2,
          al.static_symbols_alloc + a, b, Space.Static⟩,
        ⟨if n0 = "" then n3 else n0 ++ "::" ++ n3,
          al.static_symbols_alloc + a + b, c, Space.Static⟩,
        by simp, rfl, rfl, rfl, rfl, rfl, rfl⟩, ?_⟩
    show al.static_symbols_alloc + (a + (b + (c + 0)))
        = al.static_symbols_alloc + (a + b + c)
    omega
  · unfold alloc_static
    rw [hundef, if_pos rfl]
    simp only [compute_all_symbols, computeUnionFields, sizeOfTy,
      maxSize]
    exact ⟨_, rfl,
      ⟨if n0 = "" then n1 else n0 ++ "::" ++ n1,
        al.static_symbols_alloc, a, Space.Static⟩,
      ⟨if n0 = "" then n2 else n0 ++ "::" ++ n2,
        al.static_symbols_alloc, b, Space.Static⟩,
      ⟨if n0 = "" then n3 else n0 ++ "::" ++ n3,
        al.static_symbols_alloc, c, Space.Static⟩,
      by simp, rfl, rfl, rfl, rfl, rfl, rfl⟩

theorem struct_union_layout_witness :
    ({} : SymbolAlloc).static_symbols_alloc = 0 ∧
      SymbolAlloc.is_undefined {} "v" = true ∧
      0 + (1 + (2 + 3)) < 65536 ∧
      (∃ al', SymbolAlloc.alloc_static {} "v"
            (Ty.struct_ (Fields.cons "x" (Ty.leaf 1)
              (Fields.cons "y" (Ty.leaf 2) (Fields.cons "z" (Ty.leaf 3)
                Fields.nil)))) = some al' ∧
          (∃ s1 s2 s3, al'.static_symbols
              = ({} : SymbolAlloc).static_symbols ++ [s1, s2, s3] ∧
            s1.offset = 0 ∧ s1.size = 1 ∧
            s2.offset = 0 + 1 ∧ s2.size = 2 ∧
            s3.offset = 0 + 1 + 2 ∧ s3.size = 3) ∧
          al'.static_symbols_alloc = 0 + (1 + 2 + 3)) ∧
      (∃ al', SymbolAlloc.alloc_static {} "v"
            (Ty.union_ (Fields.cons "x" (Ty.leaf 1)
              (Fields.cons "y" (Ty.leaf 2) (Fields.cons "z" (Ty.leaf 3)
                Fields.nil)))) = some al' ∧
          ∃ s1 s2 s3, al'.static_symbols
              = ({} : SymbolAlloc).static_symbols ++ [s1, s2, s3] ∧
            s1.offset = 0 ∧ s1.size = 1 ∧
            s2.offset = 0 ∧ s2.size = 2 ∧
            s3.offset = 0 ∧ s3.size = 3) :=
  ⟨rfl, rfl, by omega,
   (struct_union_layout {} 0 1 2 3 "v" "x" "y" "z" rfl rfl (by omega)).1,
   (struct_union_layout {} 0 1 2 3 "v" "x" "y" "z" rfl rfl (by omega)).2⟩

end SymbolAlloc

/-! ## Virtual machine (ggbc-vm src/lib.rs)

The Ir operand model (Source, Destination, Pointer, Location,
Statement) and the Registers and StackFrame containers live in modules
that are not among the given sources; their shapes below are modelled
from the spec and pinned by the VM's own pattern matches. The two 64KB
byte arrays, the constant pool, the register banks and the stack frames
are embedded as total byte maps Nat to Nat; array bounds checks, which
no claim depends on, are not modelled. Stacks (of frames, program
counters and routine indices) are lists with the top at the head. -/

/-- Modelled from the spec: the pointer base of the operand addressing
model, one constructor per address space, each carrying a u16 base
offset. -/
inductive Pointer where
  | Absolute (addr : Nat)
  | Static (addr : Nat)
  | Const (addr : Nat)
  | Stack (addr : Nat)
  | Return (addr : Nat)

/-- Modelled from the spec: an 8-bit Source is a pointer expression (base
plus optional byte-offset sub-source), a register reference, or an
immediate literal. -/
inductive Source8 where
  | Pointer (base : Pointer) (offset : Option Source8)
  | Register (reg : Nat)
  | Literal (val : Nat)

/-- Modelled from the spec: a 16-bit Source; its optional indexing
sub-operand is an 8-bit Source as in the source code. -/
inductive Source16 where
  | Pointer (base : Pointer) (offset : Option Source8)
  | Register (reg : Nat)
  | Literal (val : Nat)

/-- Modelled from the spec: a Destination is a pointer expression or a
register reference; never a literal. -/
inductive Destination where
  | Pointer (base : Pointer) (offset : Option Source8)
  | Register (reg : Nat)

/-- Modelled from the spec: jump target, a signed offset relative to the
current program counter. -/
inductive Location where
  | Relative (rel : Int)

/-- Modelled from the spec: the closed statement set of the IR, with the
operand shapes the VM's execute dispatch destructures. The payload of
Nop is ignored by the VM and dropped here. -/
inductive Statement where
  | Nop
  | Stop
  | Ld (source : Source8) (destination : Destination)
  | LdW (source : Source16) (destination : Destination)
  | Inc (source : Source8) (destination : Destination)
  | Dec (source : Source8) (destination : Destination)
  | IncW (source : Source16) (destination : Destination)
  | DecW (source : Source16) (destination : Destination)
  | Add (left right : Source8) (destination : Destination)
  | Sub (left right : Source8) (destination : Destination)
  | And (left right : Source8) (destination : Destination)
  | Or (left right : Source8) (destination : Destination)
  | Xor (left right : Source8) (destination : Destination)
  | Mul (left right : Source8) (destination : Destination)
  | Div (left right : Source8) (destination : Destination)
  | Rem (left right : Source8) (destination : Destination)
  | MulW (left right : Source16) (destination : Destination)
  | DivW (left right : Source16) (destination : Destination)
  | RemW (left right : Source16) (destination : Destination)
  | LeftShift (left right : Source8) (destination : Destination)
  | RightShift (left right : Source8) (destination : Destination)
  | LeftShiftW (left right : Source16) (destination : Destination)
  | RightShiftW (left right : Source16) (destination : Destination)
  | Eq (left right : Source8) (destination : Destination)
  | NotEq (left right : Source8) (destination : Destination)
  | Greater (left right : Source8) (destination : Destination)
  | GreaterEq (left right : Source8) (destination : Destination)
  | Less (left right : Source8) (destination : Destination)
  | LessEq (left right : Source8) (destination : Destination)
  | AddW (left right : Source16) (destination : Destination)
  | SubW (left right : Source16) (destination : Destination)
  | AndW (left right : Source16) (destination : Destination)
  | OrW (left right : Source16) (destination : Destination)
  | XorW (left right : Source16) (destination : Destination)
  | Jmp (location : Location)
  | JmpCmp (location : Location) (source : Source8)
  | JmpCmpNot (location : Location) (source : Source8)
  | Call (routine : Nat) (rangeStart rangeEnd : Nat)
  | Ret

/-- Modelled from the spec: a routine is an ordered sequence of
statements. -/
structure Routine where
  statements : List Statement

/-- Modelled from the spec: the Ir owns the routines, the constant byte
pool (embedded as a total byte map) and the entry-routine index (the
handlers.main field of the source). -/
structure Ir where
  routines : List Routine
  const_ : Nat → Nat
  main : Nat

/-- Modelled from the spec: the pluggable byte-order policy, a codec
reading and writing a 16-bit value through a byte map. -/
structure ByteOrder where
  read16 : (Nat → Nat) → Nat → Nat
  write16 : (Nat → Nat) → Nat → Nat → (Nat → Nat)

/-- One concrete byte-order policy (low byte first), used to instantiate
witnesses; every theorem below that involves 16-bit access holds for an
arbitrary policy. -/
def LittleEndian : ByteOrder :=
  { read16 := fun m a => m a + 256 * m (a + 1),
    write16 := fun m a v => upd (upd m a (v % 256)) (a + 1) (v / 256 % 256) }

/-- Modelled from the spec: stack frames are bounded byte buffers; the
exact bound is set by a module not among the given sources, and any
bound at least as large as the copied call ranges behaves identically.
We use 2^16, matching the u16 range bounds of Call. -/
def stackFrameSize : Nat := 65536

/-- Embedding of the VM struct: running flag, the program being run, the
routine-index stack, the program-counter stack, the static and return
64KB spaces, the stack of frames, and the two register banks. -/
structure VM where
  running : Bool
  ir : Ir
  routine : List Nat
  pc : List Nat
  static_ : Nat → Nat
  return_ : Nat → Nat
  stack : List (Nat → Nat)
  reg8 : Nat → Nat
  reg16 : Nat → Nat

namespace VM

/-- Embedding of VM::new: running, pc stack holding a single 0, zeroed
memory, a single default stack frame, zeroed register banks. -/
def new (ir : Ir) : VM :=
  { running := true, ir := ir, routine := [], pc := [0],
    static_ := fun _ => 0, return_ := fun _ => 0, stack := [fun _ => 0],
    reg8 := fun _ => 0, reg16 := fun _ => 0 }

/-- Resolution of a pointer base at an already-read effective byte
offset, 8-bit read path; reading the stack space unwraps the current
(top) stack frame, which panics when the frame stack is empty. -/
def readPtr8 (vm : VM) (base : Pointer) (o : Nat) : Option Nat :=
  match base with
  | Pointer.Absolute addr => some (vm.static_ (addr + o))
  | Pointer.Static addr => some (vm.static_ (addr + o))
  | Pointer.Return addr => some (vm.return_ (addr + o))
  | Pointer.Const addr => some (vm.ir.const_ (addr + o))
  | Pointer.Stack addr =>
    match vm.stack with
    | [] => none
    | f :: _ => some (f (addr + o))

/-- Embedding of VM::read: literal verbatim, register bank lookup, or
pointer resolution with the optional offset sub-source read first (0
when absent). -/
def read (vm : VM) : Source8 → Option Nat
  | Source8.Literal val => some val
  | Source8.Register reg => some (vm.reg8 reg)
  | Source8.Pointer base none => vm.readPtr8 base 0
  | Source8.Pointer base (some s) =>
    match vm.read s with
    | none => none
    | some o => vm.readPtr8 base o

/-- Embedding of VM::read_u16, parameterized by the byte-order policy as
the source is parameterized by its ByteOrder type argument. -/
def read_u16 (B : ByteOrder) (vm : VM) (s : Source16) : Option Nat :=
  match s with
  | Source16.Literal val => some val
  | Source16.Register reg => some (vm.reg16 reg)
  | Source16.Pointer base off =>
    match (match off with | none => some 0 | some s => vm.read s) with
    | none => none
    | some o =>
      match base with
      | Pointer.Absolute addr => some (B.read16 vm.static_ (addr + o))
      | Pointer.Static addr => some (B.read16 vm.static_ (addr + o))
      | Pointer.Return addr => some (B.read16 vm.return_ (addr + o))
      | Pointer.Const addr => some (B.read16 vm.ir.const_ (addr + o))
      | Pointer.Stack addr =>
        match vm.stack with
        | [] => none
        | f :: _ => some (B.read16 f (addr + o))

/-- Embedding of VM::ld: read the 8-bit source once, then write it to
the destination; a Const pointer destination is the ROM-write panic,
modelled by none. -/
def ld (vm : VM) (source : Source8) (destination : Destination) :
    Option VM :=
  match vm.read source with
  | none => none
  | some data =>
    match destination with
    | Destination.Register reg =>
      some { vm with reg8 := upd vm.reg8 reg data }
    | Destination.Pointer base off =>
      match (match off with | none => some 0 | some s => vm.read s) with
      | none => none
      | some o =>
        match base with
        | Pointer.Absolute addr =>
          some { vm with static_ := upd vm.static_ (addr + o) data }
        | Pointer.Static addr =>
          some { vm with static_ := upd vm.static_ (addr + o) data }
        | Pointer.Return addr =>
          some { vm with return_ := upd vm.return_ (addr + o) data }
        | Pointer.Const _ => none
        | Pointer.Stack addr =>
          match vm.stack with
          | [] => none
          | f :: rest =>
            some { vm with stack := upd f (addr + o) data :: rest }

/-- Embedding of VM::ld16: 16-bit variant of ld, writing through the
byte-order policy; a Const pointer destination is the same ROM-write
panic. -/
def ld16 (B : ByteOrder) (vm : VM) (source : Source16)
    (destination : Destination) : Option VM :=
  match vm.read_u16 B source with
  | none => none
  | some data =>
    match destination with
    | Destination.Register reg =>
      some { vm with reg16 := upd vm.reg16 reg data }
    | Destination.Pointer base off =>
      match (match off with | none => some 0 | some s => vm.read s) with
      | none => none
      | some o =>
        match base with
        | Pointer.Absolute addr =>
          some { vm with static_ := B.write16 vm.static_ (addr + o) data }
        | Pointer.Static addr =>
          some { vm with static_ := B.write16 vm.static_ (addr + o) data }
        | Pointer.Return addr =>
          some { vm with return_ := B.write16 vm.return_ (addr + o) data }
        | Pointer.Const _ => none
        | Pointer.Stack addr =>
          match vm.stack with
          | [] => none
          | f :: rest =>
            some { vm with stack := B.write16 f (addr + o) data :: rest }

/-- Embedding of VM::call: push the routine index and a fresh program
counter 0, then push a new frame holding the bytes of the caller's
frame in [rangeStart, rangeEnd) at its start and zero elsewhere (the
source zips a fresh frame with that slice of the top frame; slicing
with a descending range or past the frame length panics). -/
def call (vm : VM) (routine : Nat) (rangeStart rangeEnd : Nat) :
    Option VM :=
  match vm.stack with
  | [] => none
  | top :: _ =>
    if rangeStart ≤ rangeEnd ∧ rangeEnd ≤ stackFrameSize then
      some { vm with
        routine := routine :: vm.routine,
        pc := 0 :: vm.pc,
        stack := (fun i => if i < rangeEnd - rangeStart
            then top (rangeStart + i) else 0) :: vm.stack }
    else none

/-- Embedding of VM::ret: pop the routine-index stack, the
program-counter stack and the frame stack, in that order; each pop
unwraps, so an empty stack is a fatal underflow. -/
def ret (vm : VM) : Option VM :=
  match vm.routine with
  | [] => none
  | _ :: routineRest =>
    match vm.pc with
    | [] => none
    | _ :: pcRest =>
      match vm.stack with
      | [] => none
      | _ :: stackRest =>
        some { vm with routine := routineRest, pc := pcRest,
                       stack := stackRest }

/-- Embedding of VM::jmp: add the signed relative offset to the current
program counter; the isize-to-usize cast of the source is the
reduction of the signed sum modulo 2^64. -/
def jmp (vm : VM) (location : Location) : Option VM :=
  match location with
  | Location.Relative rel =>
    match vm.pc with
    | [] => none
    | p :: rest =>
      some { vm with pc := (((p : Int) + rel).emod (2 ^ 64)).toNat :: rest }

/-- Embedding of VM::cmp (JmpCmp): jump when the tested source is
nonzero. -/
def cmp (vm : VM) (source : Source8) (location : Location) : Option VM :=
  match vm.read source with
  | none => none
  | some v => if v ≠ 0 then vm.jmp location else some vm

/-- Embedding of VM::cmp_not (JmpCmpNot): jump when the tested source is
zero. -/
def cmp_not (vm : VM) (source : Source8) (location : Location) :
    Option VM :=
  match vm.read source with
  | none => none
  | some v => if v = 0 then vm.jmp location else some vm

/-- Embedding of VM::add: u8 wrapping addition of the two read operands,
stored through ld as a literal. -/
def add (vm : VM) (left right : Source8) (destination : Destination) :
    Option VM :=
  (vm.read left).bind fun l => (vm.read right).bind fun r =>
    vm.ld (Source8.Literal ((l + r) % 256)) destination

/-- Embedding of VM::sub: u8 wrapping subtraction. -/
def sub (vm : VM) (left right : Source8) (destination : Destination) :
    Option VM :=
  (vm.read left).bind fun l => (vm.read right).bind fun r =>
    vm.ld (Source8.Literal ((l + 256 - r % 256) % 256)) destination

/-- Embedding of VM::and. -/
def and (vm : VM) (left right : Source8) (destination : Destination) :
    Option VM :=
  (vm.read left).bind fun l => (vm.read right).bind fun r =>
    vm.ld (Source8.Literal (l &&& r)) destination

/-- Embedding of VM::or. -/
def or (vm : VM) (left right : Source8) (destination : Destination) :
    Option VM :=
  (vm.read left).bind fun l => (vm.read right).bind fun r =>
    vm.ld (Source8.Literal (l ||| r)) destination

/-- Embedding of VM::xor. -/
def xor (vm : VM) (left right : Source8) (destination : Destination) :
    Option VM :=
  (vm.read left).bind fun l => (vm.read right).bind fun r =>
    vm.ld (Source8.Literal (l ^^^ r)) destination

/-- Embedding of VM::mul: plain u8 multiplication; overflow is a panic
(none), not a wrap. -/
def mul (vm : VM) (left right : Source8) (destination : Destination) :
    Option VM :=
  (vm.read left).bind fun l => (vm.read right).bind fun r =>
    if l * r < 256 then vm.ld (Source8.Literal (l * r)) destination
    else none

/-- Embedding of VM::div: plain u8 division; a zero divisor is the
division-by-zero panic, modelled by none. -/
def div (vm : VM) (left right : Source8) (destination : Destination) :
    Option VM :=
  (vm.read left).bind fun l => (vm.read right).bind fun r =>
    if r = 0 then none else vm.ld (Source8.Literal (l / r)) destination

/-- Embedding of VM::rem: plain u8 remainder; a zero divisor is the
remainder-by-zero panic, modelled by none. -/
def rem (vm : VM) (left right : Source8) (destination : Destination) :
    Option VM :=
  (vm.read left).bind fun l => (vm.read right).bind fun r =>
    if r = 0 then none else vm.ld (Source8.Literal (l % r)) destination

/-- Embedding of VM::left_shift: u8 shift; a shift amount of 8 or more
is a panic, and the shifted value keeps its low 8 bits. -/
def left_shift (vm : VM) (left right : Source8)
    (destination : Destination) : Option VM :=
  (vm.read left).bind fun l => (vm.read right).bind fun r =>
    if r < 8 then vm.ld (Source8.Literal ((l <<< r) % 256)) destination
    else none

/-- Embedding of VM::right_shift: u8 shift; a shift amount of 8 or more
is a panic. -/
def right_shift (vm : VM) (left right : Source8)
    (destination : Destination) : Option VM :=
  (vm.read left).bind fun l => (vm.read right).bind fun r =>
    if r < 8 then vm.ld (Source8.Literal (l >>> r)) destination
    else none

/-- Embedding of VM::eq: 1 when equal else 0. -/
def eq (vm : VM) (left right : Source8) (destination : Destination) :
    Option VM :=
  (vm.read left).bind fun l => (vm.read right).bind fun r =>
    vm.ld (Source8.Literal (if l = r then 1 else 0)) destination

/-- Embedding of VM::not_eq. -/
def not_eq (vm : VM) (left right : Source8) (destination : Destination) :
    Option VM :=
  (vm.read left).bind fun l => (vm.read right).bind fun r =>
    vm.ld (Source8.Literal (if l ≠ r then 1 else 0)) destination

/-- Embedding of VM::greater. -/
def greater (vm : VM) (left right : Source8)
    (destination : Destination) : Option VM :=
  (vm.read left).bind fun l => (vm.read right).bind fun r =>
    vm.ld (Source8.Literal (if l > r then 1 else 0)) destination

/-- Embedding of VM::greater_eq. -/
def greater_eq (vm : VM) (left right : Source8)
    (destination : Destination) : Option VM :=
  (vm.read left).bind fun l => (vm.read right).bind fun r =>
    vm.ld (Source8.Literal (if l ≥ r then 1 else 0)) destination

/-- Embedding of VM::less. -/
def less (vm : VM) (left right : Source8) (destination : Destination) :
    Option VM :=
  (vm.read left).bind fun l => (vm.read right).bind fun r =>
    vm.ld (Source8.Literal (if l < r then 1 else 0)) destination

/-- Embedding of VM::less_eq. -/
def less_eq (vm : VM) (left right : Source8)
    (destination : Destination) : Option VM :=
  (vm.read left).bind fun l => (vm.read right).bind fun r =>
    vm.ld (Source8.Literal (if l ≤ r then 1 else 0)) destination

/-- Embedding of VM::add16: u16 wrapping addition through ld16. -/
def add16 (B : ByteOrder) (vm : VM) (left right : Source16)
    (destination : Destination) : Option VM :=
  (vm.read_u16 B left).bind fun l => (vm.read_u16 B right).bind fun r =>
    vm.ld16 B (Source16.Literal ((l + r) % 65536)) destination

/-- Embedding of VM::sub16: u16 wrapping subtraction through ld16. -/
def sub16 (B : ByteOrder) (vm : VM) (left right : Source16)
    (destination : Destination) : Option VM :=
  (vm.read_u16 B left).bind fun l => (vm.read_u16 B right).bind fun r =>
    vm.ld16 B (Source16.Literal ((l + 65536 - r % 65536) % 65536))
      destination

/-- Embedding of VM::and16. -/
def and16 (B : ByteOrder) (vm : VM) (left right : Source16)
    (destination : Destination) : Option VM :=
  (vm.read_u16 B left).bind fun l => (vm.read_u16 B right).bind fun r =>
    vm.ld16 B (Source16.Literal (l &&& r)) destination

/-- Embedding of VM::or16. -/
def or16 (B : ByteOrder) (vm : VM) (left right : Source16)
    (destination : Destination) : Option VM :=
  (vm.read_u16 B left).bind fun l => (vm.read_u16 B right).bind fun r =>
    vm.ld16 B (Source16.Literal (l ||| r)) destination

/-- Embedding of VM::xor16. -/
def xor16 (B : ByteOrder) (vm : VM) (left right : Source16)
    (destination : Destination) : Option VM :=
  (vm.read_u16 B left).bind fun l => (vm.read_u16 B right).bind fun r =>
    vm.ld16 B (Source16.Literal (l ^^^ r)) destination

/-- Embedding of VM::inc: u8 wrapping increment through ld. -/
def inc (vm : VM) (source : Source8) (destination : Destination) :
    Option VM :=
  (vm.read source).bind fun d =>
    vm.ld (Source8.Literal ((d + 1) % 256)) destination

/-- Embedding of VM::dec: u8 wrapping decrement through ld. -/
def dec (vm : VM) (source : Source8) (destination : Destination) :
    Option VM :=
  (vm.read source).bind fun d =>
    vm.ld (Source8.Literal ((d + 255) % 256)) destination

/-- Embedding of VM::inc16: u16 wrapping increment through ld16. -/
def inc16 (B : ByteOrder) (vm : VM) (source : Source16)
    (destination : Destination) : Option VM :=
  (vm.read_u16 B source).bind fun d =>
    vm.ld16 B (Source16.Literal ((d + 1) % 65536)) destination

/-- Embedding of VM::dec16: u16 wrapping decrement through ld16. -/
def dec16 (B : ByteOrder) (vm : VM) (source : Source16)
    (destination : Destination) : Option VM :=
  (vm.read_u16 B source).bind fun d =>
    vm.ld16 B (Source16.Literal ((d + 65535) % 65536)) destination

/-- Embedding of VM::execute: dispatch on the statement tag. The four
widened operations the source leaves as todo macros are none. -/
def execute (B : ByteOrder) (vm : VM) (statement : Statement) :
    Option VM :=
  match statement with
  | Statement.Nop => some vm
  | Statement.Stop => some { vm with running := false }
  | Statement.Ld s d => vm.ld s d
  | Statement.LdW s d => vm.ld16 B s d
  | Statement.Inc s d => vm.inc s d
  | Statement.Dec s d => vm.dec s d
  | Statement.IncW s d => vm.inc16 B s d
  | Statement.DecW s d => vm.dec16 B s d
  | Statement.Add l r d => vm.add l r d
  | Statement.Sub l r d => vm.sub l r d
  | Statement.And l r d => vm.and l r d
  | Statement.Or l r d => vm.or l r d
  | Statement.Xor l r d => vm.xor l r d
  | Statement.Mul l r d => vm.mul l r d
  | Statement.Div l r d => vm.div l r d
  | Statement.Rem l r d => vm.rem l r d
  | Statement.MulW _ _ _ => none
  | Statement.DivW _ _ _ => none
  | Statement.RemW _ _ _ => none
  | Statement.LeftShift l r d => vm.left_shift l r d
  | Statement.RightShift l r d => vm.right_shift l r d
  | Statement.LeftShiftW _ _ _ => none
  | Statement.RightShiftW _ _ _ => none
  | Statement.Eq l r d => vm.eq l r d
  | Statement.NotEq l r d => vm.not_eq l r d
  | Statement.Greater l r d => vm.greater l r d
  | Statement.GreaterEq l r d => vm.greater_eq l r d
  | Statement.Less l r d => vm.less l r d
  | Statement.LessEq l r d => vm.less_eq l r d
  | Statement.AddW l r d => vm.add16 B l r d
  | Statement.SubW l r d => vm.sub16 B l r d
  | Statement.AndW l r d => vm.and16 B l r d
  | Statement.OrW l r d => vm.or16 B l r d
  | Statement.XorW l r d => vm.xor16 B l r d
  | Statement.Jmp l => vm.jmp l
  | Statement.JmpCmp l s => vm.cmp s l
  | Statement.JmpCmpNot l s => vm.cmp_not s l
  | Statement.Call r s e => vm.call r s e
  | Statement.Ret => vm.ret

/-- The routine executing on top of the routine-index stack, or the
entry routine when that stack is empty, as resolved at the start of
VM::update. -/
def currentRoutine (vm : VM) : Nat :=
  vm.routine.head?.getD vm.ir.main

/-- The statement VM::update fetches: the instruction at the current
program counter within the current routine; indexing out of the routine
table or the statement list panics. -/
def fetch (vm : VM) : Option Statement :=
  match vm.ir.routines.get? (currentRoutine vm) with
  | none => none
  | some r =>
    match vm.pc with
    | [] => none
    | p :: _ => r.statements.get? p

/-- Embedding of VM::update: when running, fetch the current statement,
execute it, then increment the top-of-stack program counter; when
stopped, do nothing at all. -/
def update (B : ByteOrder) (vm : VM) : Option VM :=
  if vm.running then
    match fetch vm with
    | none => none
    | some st =>
      match execute B vm st with
      | none => none
      | some vm' =>
        match vm'.pc with
        | [] => none
        | p :: rest => some { vm' with pc := (p + 1) :: rest }
  else some vm

/-- C6: executing Ld or LdW with a pointer destination whose base is in
the Const space is fatal for every source value and every index offset:
the constant pool is never written at runtime. -/
theorem ld_const_destination_faults (B : ByteOrder) (vm : VM)
    (src8 : Source8) (src16 : Source16) (off : Option Source8)
    (addr : Nat) :
    VM.execute B vm (Statement.Ld src8
        (Destination.Pointer (Pointer.Const addr) off)) = none ∧
      VM.execute B vm (Statement.LdW src16
        (Destination.Pointer (Pointer.Const addr) off)) = none := by
  constructor
  · show vm.ld src8 (Destination.Pointer (Pointer.Const addr) off) = none
    cases h : vm.read src8 with
    | none => simp [VM.ld, h]
    | some data =>
      cases off with
      | none => simp [VM.ld, h]
      | some s => cases h2 : vm.read s <;> simp [VM.ld, h, h2]
  · show vm.ld16 B src16 (Destination.Pointer (Pointer.Const addr) off)
        = none
    cases h : vm.read_u16 B src16 with
    | none => simp [VM.ld16, h]
    | some data =>
      cases off with
      | none => simp [VM.ld16, h]
      | some s => cases h2 : vm.read s <;> simp [VM.ld16, h, h2]

/-- C8: executing Div or Rem with a divisor operand that reads as zero
aborts immediately for every left operand; no result value is written. -/
theorem div_rem_by_zero_faults (B : ByteOrder) (vm : VM)
    (left right : Source8) (destination : Destination)
    (h : vm.read right = some 0) :
    VM.execute B vm (Statement.Div left right destination) = none ∧
      VM.execute B vm (Statement.Rem left right destination) = none := by
  constructor
  · show vm.div left right destination = none
    unfold VM.div
    cases hl : vm.read left <;> simp [hl, h]
  · show vm.rem left right destination = none
    unfold VM.rem
    cases hl : vm.read left <;> simp [hl, h]

/-- A minimal program for witnesses: one empty routine, zero constant
pool, entry routine 0. -/
def emptyIr : Ir := ⟨[⟨[]⟩], fun _ => 0, 0⟩

theorem div_rem_by_zero_faults_witness :
    (VM.new emptyIr).read (Source8.Literal 0) = some 0 ∧
      VM.execute LittleEndian (VM.new emptyIr)
        (Statement.Div (Source8.Literal 7) (Source8.Literal 0)
          (Destination.Register 0)) = none ∧
      VM.execute LittleEndian (VM.new emptyIr)
        (Statement.Rem (Source8.Literal 7) (Source8.Literal 0)
          (Destination.Register 0)) = none :=
  ⟨rfl,
   (div_rem_by_zero_faults LittleEndian (VM.new emptyIr)
     (Source8.Literal 7) (Source8.Literal 0) (Destination.Register 0)
     rfl).1,
   (div_rem_by_zero_faults LittleEndian (VM.new emptyIr)
     (Source8.Literal 7) (Source8.Literal 0) (Destination.Register 0)
     rfl).2⟩

/-- C9: Add writes (left + right) mod 256 for all operand values — in
particular 0xFF plus 0x01 gives 0x00 without a fault — and Sub, AddW
and SubW wrap at their operand width likewise; shown for a register
destination and, for Add, also for a static-memory destination. -/
theorem arithmetic_wraps (B : ByteOrder) (vm : VM)
    (left right : Source8) (left16 right16 : Source16)
    (l r l16 r16 i a : Nat)
    (hl : vm.read left = some l) (hr : vm.read right = some r)
    (hl16 : vm.read_u16 B left16 = some l16)
    (hr16 : vm.read_u16 B right16 = some r16) :
    (∃ vm', VM.execute B vm (Statement.Add left right
          (Destination.Register i)) = some vm' ∧
        vm'.reg8 i = (l + r) % 256) ∧
      (∃ vm', VM.execute B vm (Statement.Add left right
          (Destination.Pointer (Pointer.Static a) none)) = some vm' ∧
        vm'.static_ a = (l + r) % 256) ∧
      (∃ vm', VM.execute B vm (Statement.Sub left right
          (Destination.Register i)) = some vm' ∧
        vm'.reg8 i = (l + 256 - r % 256) % 256) ∧
      (∃ vm', VM.execute B vm (Statement.AddW left16 right16
          (Destination.Register i)) = some vm' ∧
        vm'.reg16 i = (l16 + r16) % 65536) ∧
      (∃ vm', VM.execute B vm (Statement.SubW left16 right16
          (Destination.Register i)) = some vm' ∧
        vm'.reg16 i = (l16 + 65536 - r16 % 65536) % 65536) := by
  refine ⟨?_, ?_, ?_, ?_, ?_⟩
  · refine ⟨{ vm with reg8 := upd vm.reg8 i ((l + r) % 256) }, ?_, by simp⟩
    show vm.add left right (Destination.Register i) = _
    simp [VM.add, hl, hr, VM.ld, VM.read]
  · refine ⟨{ vm with static_ := upd vm.static_ (a + 0) ((l + r) % 256) },
      ?_, by simp [upd]⟩
    show vm.add left right
        (Destination.Pointer (Pointer.Static a) none) = _
    simp [VM.add, hl, hr, VM.ld, VM.read]
  · refine ⟨{ vm with
        reg8 := upd vm.reg8 i ((l + 256 - r % 256) % 256) }, ?_, by simp⟩
    show vm.sub left right (Destination.Register i) = _
    simp [VM.sub, hl, hr, VM.ld, VM.read]
  · refine ⟨{ vm with reg16 := upd vm.reg16 i ((l16 + r16) % 65536) },
      ?_, by simp⟩
    show vm.add16 B left16 right16 (Destination.Register i) = _
    unfold VM.add16
    rw [hl16, hr16]
    simp [VM.ld16, VM.read_u16]
  · refine ⟨{ vm with
        reg16 := upd vm.reg16 i ((l16 + 65536 - r16 % 65536) % 65536) },
      ?_, by simp⟩
    show vm.sub16 B left16 right16 (Destination.Register i) = _
    unfold VM.sub16
    rw [hl16, hr16]
    simp [VM.ld16, VM.read_u16]

theorem arithmetic_wraps_witness :
    (VM.new emptyIr).read (Source8.Literal 255) = some 255 ∧
      (VM.new emptyIr).read (Source8.Literal 1) = some 1 ∧
      (∃ vm', VM.execute LittleEndian (VM.new emptyIr)
          (Statement.Add (Source8.Literal 255) (Source8.Literal 1)
            (Destination.Register 0)) = some vm' ∧
        vm'.reg8 0 = (255 + 1) % 256) :=
  ⟨rfl, rfl,
   (arithmetic_wraps LittleEndian (VM.new emptyIr)
     (Source8.Literal 255) (Source8.Literal 1)
     (Source16.Literal 0) (Source16.Literal 0)
     255 1 0 0 0 0 rfl rfl rfl rfl).1⟩

theorem ld_preserves_running (vm : VM) (s : Source8) (d : Destination) :
    ∀ vm', vm.ld s d = some vm' → vm'.running = vm.running := by
  intro vm'
  cases h : vm.read s with
  | none => simp [VM.ld, h]
  | some data =>
    cases d with
    | Register reg =>
      intro hh
      simp [VM.ld, h] at hh
      subst hh
      rfl
    | Pointer base off =>
      cases off with
      | none =>
        cases base <;> intro hh <;> simp [VM.ld, h] at hh
        case Stack addr =>
          cases hs : vm.stack with
          | nil => simp [hs] at hh
          | cons f rest => simp [hs] at hh; subst hh; rfl
        all_goals (subst hh; rfl)
      | some s2 =>
        cases h2 : vm.read s2 with
        | none => intro hh; simp [VM.ld, h, h2] at hh
        | some o =>
          cases base <;> intro hh <;> simp [VM.ld, h, h2] at hh
          case Stack addr =>
            cases hs : vm.stack with
            | nil => simp [hs] at hh
            | cons f rest => simp [hs] at hh; subst hh; rfl
          all_goals (subst hh; rfl)

theorem ld16_preserves_running (B : ByteOrder) (vm : VM) (s : Source16)
    (d : Destination) :
    ∀ vm', vm.ld16 B s d = some vm' → vm'.running = vm.running := by
  intro vm'
  cases h : vm.read_u16 B s with
  | none => simp [VM.ld16, h]
  | some data =>
    cases d with
    | Register reg =>
      intro hh
      simp [VM.ld16, h] at hh
      subst hh
      rfl
    | Pointer base off =>
      cases off with
      | none =>
        cases base <;> intro hh <;> simp [VM.ld16, h] at hh
        case Stack addr =>
          cases hs : vm.stack with
          | nil => simp [hs] at hh
          | cons f rest => simp [hs] at hh; subst hh; rfl
        all_goals (subst hh; rfl)
      | some s2 =>
        cases h2 : vm.read s2 with
        | none => intro hh; simp [VM.ld16, h, h2] at hh
        | some o =>
          cases base <;> intro hh <;> simp [VM.ld16, h, h2] at hh
          case Stack addr =>
            cases hs : vm.stack with
            | nil => simp [hs] at hh
            | cons f rest => simp [hs] at hh; subst hh; rfl
          all_goals (subst hh; rfl)

theorem jmp_preserves_running (vm : VM) (l : Location) :
    ∀ vm', vm.jmp l = some vm' → vm'.running = vm.running := by
  intro vm'
  cases l with
  | Relative rel =>
    cases hpc : vm.pc with
    | nil => simp [VM.jmp, hpc]
    | cons p rest =>
      intro hh
      simp [VM.jmp, hpc] at hh
      subst hh
      rfl

theorem call_preserves_running (vm : VM) (r s e : Nat) :
    ∀ vm', vm.call r s e = some vm' → vm'.running = vm.running := by
  intro vm'
  cases hs : vm.stack with
  | nil => simp [VM.call, hs]
  | cons top rest =>
    intro hh
    simp [VM.call, hs] at hh
    obtain ⟨-, hh⟩ := hh
    subst hh
    rfl

theorem ret_preserves_running (vm : VM) :
    ∀ vm', vm.ret = some vm' → vm'.running = vm.running := by
  intro vm'
  cases hr : vm.routine with
  | nil => simp [VM.ret, hr]
  | cons _ rr =>
    cases hp : vm.pc with
    | nil => simp [VM.ret, hr, hp]
    | cons _ pr =>
      cases hs : vm.stack with
      | nil => simp [VM.ret, hr, hp, hs]
      | cons _ sr =>
        intro hh
        simp [VM.ret, hr, hp, hs] at hh
        subst hh
        rfl

theorem cmp_preserves_running (vm : VM) (s : Source8) (l : Location) :
    ∀ vm', vm.cmp s l = some vm' → vm'.running = vm.running := by
  intro vm'
  cases h : vm.read s with
  | none => simp [VM.cmp, h]
  | some v =>
    intro hh
    simp only [VM.cmp, h] at hh
    split at hh
    · exact jmp_preserves_running _ _ _ hh
    · cases hh; rfl

theorem cmp_not_preserves_running (vm : VM) (s : Source8)
    (l : Location) :
    ∀ vm', vm.cmp_not s l = some vm' → vm'.running = vm.running := by
  intro vm'
  cases h : vm.read s with
  | none => simp [VM.cmp_not, h]
  | some v =>
    intro hh
    simp only [VM.cmp_not, h] at hh
    split at hh
    · exact jmp_preserves_running _ _ _ hh
    · cases hh; rfl

theorem execute_preserves_running (B : ByteOrder) (vm vm' : VM)
    (st : Statement) (h : VM.execute B vm st = some vm')
    (hst : st ≠ Statement.Stop) : vm'.running = vm.running := by
  cases st <;> simp only [VM.execute, VM.inc, VM.dec, VM.inc16, VM.dec16,
    VM.add, VM.sub, VM.and, VM.or, VM.xor, VM.mul, VM.div, VM.rem,
    VM.left_shift, VM.right_shift, VM.eq, VM.not_eq, VM.greater,
    VM.greater_eq, VM.less, VM.less_eq, VM.add16, VM.sub16, VM.and16,
    VM.or16, VM.xor16] at h
  case Stop => exact absurd rfl hst
  case Nop => cases h; rfl
  case Jmp => exact jmp_preserves_running _ _ _ h
  case JmpCmp => exact cmp_preserves_running _ _ _ _ h
  case JmpCmpNot => exact cmp_not_preserves_running _ _ _ _ h
  case Call => exact call_preserves_running _ _ _ _ _ h
  case Ret => exact ret_preserves_running _ _ h
  case Ld => exact ld_preserves_running _ _ _ _ h
  case LdW => exact ld16_preserves_running _ _ _ _ _ h
  all_goals first
    | cases h
    | (obtain ⟨x, -, h⟩ := Option.bind_eq_some.mp h
       first
       | exact ld_preserves_running _ _ _ _ h
       | exact ld16_preserves_running _ _ _ _ _ h
       | (obtain ⟨y, -, h⟩ := Option.bind_eq_some.mp h
          first
          | exact ld_preserves_running _ _ _ _ h
          | exact ld16_preserves_running _ _ _ _ _ h
          | (split at h
             all_goals first
               | cases h
               | exact ld_preserves_running _ _ _ _ h)))

/-- C5: executing Stop always leaves the VM stopped; executing any other
statement leaves the running flag unchanged (so no statement restarts a
stopped VM, and Stop is the only transition to stopped); and once
stopped, update fetches and executes nothing, returning the machine
state unchanged. -/
theorem stop_only_transition (B : ByteOrder) (vm : VM) :
    (∀ vm', VM.execute B vm Statement.Stop = some vm' →
      vm'.running = false) ∧
      (∀ st vm', st ≠ Statement.Stop → VM.execute B vm st = some vm' →
        vm'.running = vm.running) ∧
      (vm.running = false → VM.update B vm = some vm) := by
  refine ⟨?_, ?_, ?_⟩
  · intro vm' h
    simp only [VM.execute] at h
    simp at h
    subst h
    rfl
  · intro st vm' hne h
    exact execute_preserves_running B vm vm' st h hne
  · intro h
    unfold VM.update
    simp [h]

theorem stop_only_transition_witness :
    (∀ vm', VM.execute LittleEndian (VM.new emptyIr) Statement.Stop
        = some vm' → vm'.running = false) ∧
      (Statement.Nop ≠ Statement.Stop) ∧
      (∀ vm', VM.execute LittleEndian (VM.new emptyIr) Statement.Nop
          = some vm' →
        vm'.running = (VM.new emptyIr).running) ∧
      (({ VM.new emptyIr with running := false } : VM).running = false) ∧
      VM.update LittleEndian { VM.new emptyIr with running := false }
        = some { VM.new emptyIr with running := false } :=
  by
  refine ⟨(stop_only_transition LittleEndian (VM.new emptyIr)).1,
    ?_, ?_, rfl, ?_⟩
  · intro hh; cases hh
  · intro vm' h
    exact (stop_only_transition LittleEndian (VM.new emptyIr)).2.1
      Statement.Nop vm' (by intro hh; cases hh) h
  · exact (stop_only_transition LittleEndian
      { VM.new emptyIr with running := false }).2.2 rfl

/-- One running fetch-execute cycle, factored: when the VM is running,
the fetched statement executes to an intermediate state, and the cycle
ends by incrementing that state's top-of-stack program counter. -/
theorem update_step (B : ByteOrder) (vm vm1 : VM) (st : Statement)
    (p : Nat) (rest : List Nat)
    (hrun : vm.running = true)
    (hfetch : VM.fetch vm = some st)
    (hexec : VM.execute B vm st = some vm1)
    (hp : vm1.pc = p :: rest) :
    VM.update B vm = some { vm1 with pc := (p + 1) :: rest } := by
  unfold VM.update
  simp only [hrun, if_true, hfetch, hexec, hp]

/-- C10: a fetch-execute cycle whose statement is Call increments the
program counter the Call just pushed (0 becomes 1), so the first
statement fetched in the callee routine is the one at index 1, not the
pushed value 0. -/
theorem call_cycle_skips_callee_index_zero (B : ByteOrder) (vm : VM)
    (R s e : Nat)
    (hrun : vm.running = true)
    (hfetch : VM.fetch vm = some (Statement.Call R s e))
    (hstack : vm.stack ≠ [])
    (hs : s ≤ e) (he : e ≤ stackFrameSize) :
    ∃ vm', VM.update B vm = some vm' ∧
      vm'.pc = 1 :: vm.pc ∧
      vm'.routine = R :: vm.routine ∧
      VM.fetch vm' = (vm.ir.routines.get? R).bind
        (fun rt => rt.statements.get? 1) := by
  obtain ⟨top, srest, hstk⟩ : ∃ top srest, vm.stack = top :: srest := by
    cases hh : vm.stack with
    | nil => exact absurd hh hstack
    | cons a b => exact ⟨a, b, rfl⟩
  have hexec : VM.execute B vm (Statement.Call R s e) =
      some { vm with
             routine := R :: vm.routine,
             pc := 0 :: vm.pc,
             stack := ((fun i => if i < e - s then top (s + i) else 0)
               :: top :: srest) } := by
    show vm.call R s e = _
    unfold VM.call
    simp only [hstk]
    rw [if_pos ⟨hs, he⟩]
  refine ⟨_, update_step B vm _ (Statement.Call R s e) 0 vm.pc hrun
    hfetch hexec rfl, rfl, rfl, ?_⟩
  cases hR : vm.ir.routines.get? R with
  | none =>
    simp only [VM.fetch, VM.currentRoutine, List.head?_cons,
      Option.getD_some, hR, Option.none_bind]
  | some rt =>
    simp only [VM.fetch, VM.currentRoutine, List.head?_cons,
      Option.getD_some, hR, Option.some_bind, Nat.zero_add]

/-- A two-routine program for the call round-trip witnesses: the entry
routine calls routine 1 with range [0, 2), and routine 1 returns at
index 1. -/
def callRetIr : Ir :=
  ⟨[⟨[Statement.Call 1 0 2]⟩, ⟨[Statement.Nop, Statement.Ret]⟩],
   fun _ => 0, 0⟩

theorem call_cycle_skips_callee_index_zero_witness :
    (VM.new callRetIr).running = true ∧
      (∃ vm', VM.update LittleEndian (VM.new callRetIr) = some vm' ∧
        vm'.pc = 1 :: (VM.new callRetIr).pc ∧
        vm'.routine = 1 :: (VM.new callRetIr).routine ∧
        VM.fetch vm' = ((VM.new callRetIr).ir.routines.get? 1).bind
          (fun rt => rt.statements.get? 1)) :=
  ⟨rfl,
   call_cycle_skips_callee_index_zero LittleEndian (VM.new callRetIr)
     1 0 2 rfl rfl (by simp [VM.new]) (by omega)
     (by unfold stackFrameSize; omega)⟩

/-- C1: a Call cycle followed immediately by a Ret cycle resumes the
caller at the instruction after the Call — the saved program counter is
incremented as usual — and leaves every other machine component,
including every byte of the caller's own stack frame, unchanged; Ret
pops the routine-index, program-counter and frame stacks (popping any
of them empty is a fatal underflow). -/
theorem call_ret_round_trip (B : ByteOrder) (vm : VM)
    (R s e p : Nat) (pcrest : List Nat) (rt : Routine)
    (hrun : vm.running = true)
    (hpc : vm.pc = p :: pcrest)
    (hfetch : VM.fetch vm = some (Statement.Call R s e))
    (hstack : vm.stack ≠ [])
    (hs : s ≤ e) (he : e ≤ stackFrameSize)
    (hR : vm.ir.routines.get? R = some rt)
    (hret : rt.statements.get? 1 = some Statement.Ret) :
    (∃ vm1 vm2, VM.update B vm = some vm1 ∧ VM.update B vm1 = some vm2 ∧
      vm2 = { vm with pc := (p + 1) :: pcrest }) ∧
      (∀ (w : VM) (r q : Nat) rs qs (f : Nat → Nat) fs,
        w.routine = r :: rs → w.pc = q :: qs → w.stack = f :: fs →
        VM.ret w = some { w with routine := rs, pc := qs, stack := fs }) ∧
      (∀ w : VM, w.routine = [] ∨ w.pc = [] ∨ w.stack = [] →
        VM.ret w = none) := by
  refine ⟨?_, ?_, ?_⟩
  · obtain ⟨top, srest, hstk⟩ : ∃ top srest, vm.stack = top :: srest := by
      cases hh : vm.stack with
      | nil => exact absurd hh hstack
      | cons a b => exact ⟨a, b, rfl⟩
    have hexec : VM.execute B vm (Statement.Call R s e) =
        some { vm with
               routine := R :: vm.routine,
               pc := 0 :: vm.pc,
               stack := ((fun i => if i < e - s then top (s + i) else 0)
                 :: top :: srest) } := by
      show vm.call R s e = _
      unfold VM.call
      simp only [hstk]
      rw [if_pos ⟨hs, he⟩]
    have h1 : VM.update B vm =
        some { vm with
               routine := R :: vm.routine,
               pc := (0 + 1) :: vm.pc,
               stack := ((fun i => if i < e - s then top (s + i) else 0)
                 :: top :: srest) } :=
      update_step B vm _ (Statement.Call R s e) 0 vm.pc hrun hfetch
        hexec rfl
    refine ⟨_, { vm with pc := (p + 1) :: pcrest }, h1, ?_, rfl⟩
    rw [hstk]
    exact update_step B
      { vm with
        routine := R :: vm.routine,
        pc := (0 + 1) :: vm.pc,
        stack := ((fun i => if i < e - s then top (s + i) else 0)
          :: top :: srest) }
      { vm with stack := top :: srest }
      Statement.Ret p pcrest hrun
      (by simp only [VM.fetch, VM.currentRoutine, List.head?_cons,
        Option.getD_some, hR, Nat.zero_add, hret])
      rfl hpc
  · intro w r q rs qs f fs hw1 hw2 hw3
    unfold VM.ret
    rw [hw1, hw2, hw3]
  · intro w hw
    unfold VM.ret
    rcases hw with h | h | h
    · rw [h]
    · cases hw1 : w.routine with
      | nil => rfl
      | cons _ _ => rw [h]
    · cases hw1 : w.routine with
      | nil => rfl
      | cons _ _ =>
        cases hw2 : w.pc with
        | nil => rfl
        | cons _ _ => rw [h]

theorem call_ret_round_trip_witness :
    ∃ vm1 vm2, VM.update LittleEndian (VM.new callRetIr) = some vm1 ∧
      VM.update LittleEndian vm1 = some vm2 ∧
      vm2 = { VM.new callRetIr with pc := (0 + 1) :: [] } :=
  (call_ret_round_trip LittleEndian (VM.new callRetIr) 1 0 2 0 []
    ⟨[Statement.Nop, Statement.Ret]⟩ rfl rfl rfl (by simp [VM.new])
    (by omega) (by decide) rfl rfl).1

end VM

end Ggbc
